import Mathlib

/-!
Verification of the note.com auto-posting repository's browser-automation
core (`note_poster.py`, `image_fetcher.py`, `main.py`, `post_history.py`)
against its natural-language specification.

Strings are modelled as `List Char`; the Python string primitives used by
the source (`str.split`, `str.replace`, `str.strip`, substring tests) are
embedded with Python's exact semantics (left-to-right, non-overlapping
scanning).  Browser side effects (typing, clicking, image insertion) are
modelled as explicit event traces; the outcomes of DOM queries, network
responses and click attempts are inputs to the embedded functions, so the
control flow of the source is reproduced over them.
-/

namespace NoteAuto

/-- Python `sub in s` for strings: `sub` occurs contiguously in `s`
(the empty string occurs in every string). -/
def hasSub (s sub : List Char) : Bool :=
  match s with
  | [] => sub.isEmpty
  | _ :: rest => sub.isPrefixOf s || hasSub rest sub

/-- Python `s.lower()` (ASCII case folding suffices for the URLs involved). -/
def lowerCase (s : List Char) : List Char :=
  s.map Char.toLower

/-- Python `s.strip()`: remove leading and trailing whitespace. -/
def pyStrip (s : List Char) : List Char :=
  ((s.dropWhile Char.isWhitespace).reverse.dropWhile Char.isWhitespace).reverse

/-- Python `text.split("\n")`: the source's `_type_paragraphs` splits the
body into paragraphs this way (empty parts are kept, `"".split` is `[""]`). -/
def splitNL : List Char → List (List Char)
  | [] => [[]]
  | c :: rest =>
    if c = '\n' then [] :: splitNL rest
    else
      let r := splitNL rest
      (c :: r.headD []) :: r.tail

/-- Fuelled scanner for Python `s.replace(old, "")`: left-to-right,
non-overlapping; on a match the scan resumes after the matched occurrence.
The fuel is an upper bound on the number of scanning steps. -/
def replAux (old : List Char) : Nat → List Char → List Char
  | _, [] => []
  | 0, s => s
  | fuel + 1, c :: rest =>
    if !old.isEmpty && old.isPrefixOf (c :: rest) then
      replAux old fuel (rest.drop (old.length - 1))
    else
      c :: replAux old fuel rest

/-- Python `s.replace(old, "")`, as used on the paid-content delimiter in
`post_article` (`body.replace("---ここから有料---", "")`). -/
def pyReplaceAll (s old : List Char) : List Char :=
  replAux old s.length s

/-- Fuelled scanner for Python `s.split(sep)` with a non-empty separator:
left-to-right, non-overlapping. -/
def splitAux (sep : List Char) : Nat → List Char → List (List Char)
  | _, [] => [[]]
  | 0, s => [s]
  | fuel + 1, c :: rest =>
    if !sep.isEmpty && sep.isPrefixOf (c :: rest) then
      [] :: splitAux sep fuel (rest.drop (sep.length - 1))
    else
      let r := splitAux sep fuel rest
      (c :: r.headD []) :: r.tail

/-- Python `s.split(sep)`, as used on the paid-content delimiter in
`post_article` (`body.split("---ここから有料---")`). -/
def pySplit (s sep : List Char) : List (List Char) :=
  splitAux sep s.length s

/-- The literal head of an image marker; `image_fetcher.IMAGE_MARKER_PATTERN`
is the regex `\[IMAGE:([^\]]+)\]`. -/
def imageMarkerHead : List Char := "[IMAGE:".toList

/-- `IMAGE_MARKER_PATTERN.match s` (Python `re.match`, i.e. anchored at the
start of `s`): succeeds when `s` begins with `[IMAGE:`, then a non-empty run
of characters other than `]`, then `]`.  Returns the capture group together
with the text of `s` after the match (which `_type_paragraphs` discards). -/
def imageMarkerMatch (s : List Char) : Option (List Char × List Char) :=
  if imageMarkerHead.isPrefixOf s then
    let t := s.drop imageMarkerHead.length
    let k := t.takeWhile (fun c => c ≠ ']')
    let r := t.dropWhile (fun c => c ≠ ']')
    if k.isEmpty then none
    else if r.isEmpty then none
    else some (k, r.tail)
  else none

/-- The keyword under which `_type_paragraphs` looks a marker paragraph up in
the image dictionary: `match.group(1).strip()` applied to the anchored match
on the stripped paragraph. -/
def markerKeywordOf (para : List Char) : Option (List Char) :=
  (imageMarkerMatch (pyStrip para)).map fun kr => pyStrip kr.1

/-- Observable editor events emitted by the content-entry engine.
`insertImage` abstracts the whole `_insert_image` procedure invoked with the
given local path; `typed` is one `page.keyboard.type(paragraph)` call;
`enter` is the paragraph loop's end-of-paragraph `page.keyboard.press("Enter")`. -/
inductive Ev where
  | typed (s : List Char)
  | enter
  | insertImage (path : String)
  deriving DecidableEq, Repr

/-- One iteration of the paragraph loop in `_type_paragraphs`: a paragraph
whose stripped text matches the (anchored) marker pattern produces an image
insertion when its stripped keyword resolves in the image dictionary, and is
otherwise dropped silently; in both marker cases the loop `continue`s, so no
text is typed and no end-of-paragraph Enter is pressed.  A non-marker
paragraph is typed literally when non-blank and always ends with Enter. -/
def paragraphEvents (images : List Char → Option String) (para : List Char) : List Ev :=
  let stripped := pyStrip para
  match imageMarkerMatch stripped with
  | some (k, _) =>
    match images (pyStrip k) with
    | some p => [Ev.insertImage p]
    | none => []
  | none =>
    (if stripped.isEmpty then [] else [Ev.typed para]) ++ [Ev.enter]

/-- The paragraph loop of `_type_paragraphs` over an explicit paragraph list. -/
def typeParagraphsAux (images : List Char → Option String) : List (List Char) → List Ev
  | [] => []
  | p :: ps => paragraphEvents images p ++ typeParagraphsAux images ps

/-- `_type_paragraphs(text)`: split on `"\n"` and run the paragraph loop. -/
def typeParagraphs (images : List Char → Option String) (text : List Char) : List Ev :=
  typeParagraphsAux images (splitNL text)

/-- The paid-content delimiter literal from `post_article`. -/
def paidDelim : List Char := "---ここから有料---".toList

/-- The shape of the body-typing phase of `post_article`: either one typing
pass, or the free pass followed by the paid pass. -/
inductive BodyTyping where
  | single (events : List Ev)
  | paidSplit (freeEvents paidEvents : List Ev)
  deriving DecidableEq, Repr

/-- The body-typing phase of `post_article`: with the paid-article feature
enabled and the delimiter present, the body is split on the delimiter and
parts 0 and 1 are typed as two sequential passes; otherwise the delimiter is
removed by one `replace` pass and the remainder typed as a single stream. -/
def postBody (paidEnabled : Bool) (images : List Char → Option String)
    (body : List Char) : BodyTyping :=
  if paidEnabled && hasSub body paidDelim then
    let parts := pySplit body paidDelim
    BodyTyping.paidSplit (typeParagraphs images (parts.getD 0 []))
      (typeParagraphs images (parts.getD 1 []))
  else
    BodyTyping.single (typeParagraphs images (pyReplaceAll body paidDelim))

/-- The image paths handed to the insertion procedure, in event order. -/
def insertedPaths (evs : List Ev) : List String :=
  evs.filterMap fun e =>
    match e with
    | Ev.insertImage p => some p
    | _ => none

/-- The contents of the `typed` events, in event order. -/
def typedTexts (evs : List Ev) : List (List Char) :=
  evs.filterMap fun e =>
    match e with
    | Ev.typed s => some s
    | _ => none

/-- How many end-of-paragraph Enter keystrokes the trace contains. -/
def enterCount (evs : List Ev) : Nat :=
  evs.countP fun e => e = Ev.enter

/-! ## Element locator (`_find_element`) -/

/-- What one candidate selector yields on the current page: the whole
`try` body can raise (`error`), or the query returns a match `count` and the
visibility of the first match. -/
inductive QueryOutcome where
  | error
  | found (count : Nat) (firstVisible : Bool)
  deriving DecidableEq, Repr

/-- Whether one candidate selector succeeds in `_find_element`'s loop body:
no exception, `locator.count() > 0`, and `locator.first.is_visible()`.
An exception anywhere in the body is swallowed and the candidate skipped. -/
def candidateHit (page : String → QueryOutcome) (sel : String) : Bool :=
  match page sel with
  | QueryOutcome.error => false
  | QueryOutcome.found count firstVisible => decide (0 < count) && firstVisible

/-- `_find_element(page, selectors)`: iterate the candidates in order and
return the first match of the first candidate that hits (modelled by the
selector that produced it); `None` when the list is exhausted. -/
def find_element (page : String → QueryOutcome) : List String → Option String
  | [] => none
  | sel :: rest =>
    if candidateHit page sel then some sel else find_element page rest

/-! ## Safe click (`_safe_click`) and draft saving (`_save_as_draft`) -/

/-- `_safe_click`: up to three click attempts; `True` as soon as one attempt
does not raise, `False` when all three raise.  The input gives the outcome of
each attempt. -/
def safe_click (attempt : Fin 3 → Bool) : Bool :=
  attempt 0 || attempt 1 || attempt 2

/-- Inputs to `_save_as_draft`: whether a draft affordance was located, and
the outcomes of the click attempts on it. -/
structure DraftEnv where
  draftButtonFound : Bool
  clickAttempt : Fin 3 → Bool

/-- `_save_as_draft`: if no draft affordance is found, return `False`;
otherwise call `_safe_click` — whose boolean result the source discards —
wait a fixed settle period, and return `True`. -/
def save_as_draft (env : DraftEnv) : Bool :=
  if env.draftButtonFound then
    let _ := safe_click env.clickAttempt
    true
  else false

/-! ## Login (`login`) -/

/-- Inputs to `login`: the two environment credentials (empty string models
an unset variable, which Python's `not email` treats the same as `""`),
whether the three `_find_element` lookups succeed, and the page URL after the
submit click and the bounded wait. -/
structure LoginEnv where
  email : String
  password : String
  emailFieldFound : Bool
  passwordFieldFound : Bool
  loginButtonFound : Bool
  urlAfterSubmit : List Char

/-- `login`: raises `ValueError` on missing credentials; returns `False`
(with no session write) when the email field, password field or login button
is not located, or when the post-submit URL, lowercased, contains `"login"`;
otherwise writes the session state file and returns `True`.  The result pair
is `(returned value, session state written)`. -/
def login (env : LoginEnv) : Except String (Bool × Bool) :=
  if env.email = "" || env.password = "" then
    Except.error "NOTE_EMAIL と NOTE_PASSWORD を .env ファイルに設定してください"
  else if !env.emailFieldFound then Except.ok (false, false)
  else if !env.passwordFieldFound then Except.ok (false, false)
  else if !env.loginButtonFound then Except.ok (false, false)
  else if hasSub (lowerCase env.urlAfterSubmit) "login".toList then Except.ok (false, false)
  else Except.ok (true, true)

/-! ## Session reuse in `run_post` -/

/-- The externally visible actions of `run_post`'s session phase.
`performLogin` stands for the whole interactive `login` procedure (the only
place credential fields are touched); `deleteAuthState` is
`AUTH_STATE_FILE.unlink`; `postArticle` is the call into `post_article`. -/
inductive RpAction where
  | navigateRoot
  | deleteAuthState
  | performLogin
  | postArticle
  deriving DecidableEq, Repr

/-- Inputs to `run_post`'s session phase: whether the saved session-state
file exists, whether the site root shows a login affordance
(`login_link.count() > 0`, consulted only in the reuse branch), the outcome
of an interactive login if one is performed, and the outcome of the post. -/
structure RunPostEnv where
  authStateExists : Bool
  loginLinkPresent : Bool
  loginSucceeds : Bool
  postSucceeds : Bool

/-- `run_post`, as a trace of session-phase actions plus the returned
verdict.  No saved state: interactive login, abort on failure.  Saved state:
navigate to the site root; if a login affordance is present, delete the
saved state and log in interactively (abort on failure); otherwise proceed
straight to posting. -/
def run_post (env : RunPostEnv) : List RpAction × Bool :=
  if !env.authStateExists then
    if env.loginSucceeds then
      ([RpAction.performLogin, RpAction.postArticle], env.postSucceeds)
    else
      ([RpAction.performLogin], false)
  else
    if env.loginLinkPresent then
      if env.loginSucceeds then
        ([RpAction.navigateRoot, RpAction.deleteAuthState, RpAction.performLogin,
          RpAction.postArticle], env.postSucceeds)
      else
        ([RpAction.navigateRoot, RpAction.deleteAuthState, RpAction.performLogin], false)
    else
      ([RpAction.navigateRoot, RpAction.postArticle], env.postSucceeds)

/-! ## Publish verdict (`_publish`) -/

/-- A network response seen by the `page.on("response")` listener. -/
structure NetResponse where
  url : List Char
  status : Nat
  deriving DecidableEq, Repr

/-- The listener's condition for appending to `published_via_api`: the URL
contains `"note.com"`, the status is 200 or 201, and the URL contains
`"draft=false"`. -/
def isProofResponse (r : NetResponse) : Bool :=
  hasSub r.url "note.com".toList
    && (r.status = 200 || r.status = 201)
    && hasSub r.url "draft=false".toList

/-- The final URL check of `_publish`: still on the publish-settings
pattern, the new-post pattern, or ending in `/edit`. -/
def unresolvedUrl (u : List Char) : Bool :=
  hasSub u "/publish/".toList || hasSub u "/notes/new".toList
    || "/edit".toList.isSuffixOf u

/-- One run of `_publish`, seen through the response listener: the responses
that have arrived by the proof check right after the settings-page
navigation (`phase1`), the further responses that have arrived by the proof
re-check after the final confirm click and the network-idle wait (`phase2`),
the responses arriving later still (`phase3`, recorded but never re-read),
and the page URL at the final check. -/
structure PublishRun where
  phase1 : List NetResponse
  phase2 : List NetResponse
  phase3 : List NetResponse
  finalUrl : List Char

/-- The verdict of `_publish`: return `True` at the first proof check if a
proof response has been recorded; otherwise continue, and return `True` at
the re-check if a proof response has been recorded by then; otherwise the
verdict is the URL heuristic — `False` exactly on an unresolved URL. -/
def publishVerdict (run : PublishRun) : Bool :=
  if run.phase1.any isProofResponse then true
  else if (run.phase1 ++ run.phase2).any isProofResponse then true
  else if unresolvedUrl run.finalUrl then false
  else true

/-! ## History records (`main.py` account loop + `post_history.add_record`) -/

/-- One record appended by `post_history.add_record` (timestamp omitted). -/
structure HistRecord where
  theme : String
  title : String
  success : Bool
  as_draft : Bool
  error : Option String
  deriving DecidableEq, Repr

/-- The records `main`'s per-account block appends for one account, given
the outcome of `asyncio.run(run_post(...))`: on a normal return, the single
post-`finally` record; on an exception, the `except`-block record carrying
the error string, followed by the unconditional post-`finally` record. -/
def recordsForAccount (theme title : String) (asDraft : Bool)
    (outcome : Except String Bool) : List HistRecord :=
  match outcome with
  | Except.error e =>
    [{ theme := theme, title := title, success := false, as_draft := asDraft,
       error := some e },
     { theme := theme, title := title, success := false, as_draft := asDraft,
       error := none }]
  | Except.ok s =>
    [{ theme := theme, title := title, success := s, as_draft := asDraft,
       error := none }]

/-- `main`'s account loop: every account is processed regardless of earlier
outcomes; the history records accumulate in order and `all_success` is the
conjunction of the per-account verdicts (an exception counts as failure). -/
def mainLoop (theme title : String) (asDraft : Bool) :
    List (Except String Bool) → List HistRecord × Bool
  | [] => ([], true)
  | outcome :: rest =>
    let r := mainLoop theme title asDraft rest
    (recordsForAccount theme title asDraft outcome ++ r.1,
      (match outcome with
        | Except.ok true => true
        | _ => false) && r.2)

/-! ## Basic lemmas about the Python string primitives -/

theorem hasSub_cons (c : Char) (rest sub : List Char) :
    hasSub (c :: rest) sub = (sub.isPrefixOf (c :: rest) || hasSub rest sub) := rfl

theorem isPrefixOf_eq_true_iff {l₁ l₂ : List Char} :
    l₁.isPrefixOf l₂ = true ↔ l₁ <+: l₂ := by
  simp

theorem sub_of_pre {l₁ l₂ : List Char} (h : l₁ <+: l₂) : l₁ <:+: l₂ := by
  obtain ⟨t, rfl⟩ := h
  exact ⟨[], t, rfl⟩

theorem hasSub_eq_true_iff (s t : List Char) : hasSub s t = true ↔ t <:+: s := by
  induction s with
  | nil => simp [hasSub]
  | cons c rest ih =>
    simp [hasSub, ih, List.infix_cons_iff]

theorem hasSub_eq_false_of_sub {p s t : List Char} (hp : p <:+: s)
    (hs : hasSub s t = false) : hasSub p t = false := by
  by_contra h
  have h' : hasSub p t = true := by
    revert h; cases hasSub p t <;> simp
  have ht : t <:+: s := ((hasSub_eq_true_iff p t).mp h').trans hp
  rw [← hasSub_eq_true_iff] at ht
  simp [hs] at ht

theorem hasSub_middle (old a b : List Char) : hasSub (a ++ old ++ b) old = true := by
  rw [hasSub_eq_true_iff]
  exact ⟨a, b, rfl⟩

/-! ## Lemmas about the `replace` / `split` scanners -/

theorem replAux_of_not_hasSub (old : List Char) :
    ∀ (f : Nat) (s : List Char), s.length ≤ f → hasSub s old = false →
      replAux old f s = s := by
  intro f
  induction f with
  | zero =>
    intro s hs _
    cases s with
    | nil => rfl
    | cons c rest => simp at hs
  | succ f ih =>
    intro s hs h
    cases s with
    | nil => rfl
    | cons c rest =>
      rw [hasSub_cons] at h
      have h1 : old.isPrefixOf (c :: rest) = false := by
        cases hp : old.isPrefixOf (c :: rest) <;> simp [hp] at h ⊢
      have h2 : hasSub rest old = false := by
        cases hq : hasSub rest old <;> simp [hq] at h ⊢
      simp only [replAux, h1, Bool.and_false, if_neg, Bool.false_eq_true,
        not_false_eq_true]
      rw [ih rest (by simpa using Nat.le_of_succ_le_succ hs) h2]

theorem replAux_boundary (old : List Char) (hold : old ≠ []) :
    ∀ (a : List Char) (f : Nat) (b : List Char),
      (a ++ old ++ b).length ≤ f →
      (∀ i, i < a.length → old.isPrefixOf ((a ++ old ++ b).drop i) = false) →
      hasSub b old = false →
      replAux old f (a ++ old ++ b) = a ++ b := by
  intro a
  induction a with
  | nil =>
    intro f b hf _ hb
    obtain ⟨o, old', rfl⟩ : ∃ o old', old = o :: old' := by
      cases old with
      | nil => exact absurd rfl hold
      | cons o old' => exact ⟨o, old', rfl⟩
    cases f with
    | zero => simp at hf
    | succ f =>
      simp only [List.nil_append, List.cons_append] at hf ⊢
      rw [replAux]
      have hpre : (o :: old').isPrefixOf (o :: (old' ++ b)) = true := by
        rw [isPrefixOf_eq_true_iff]
        exact ⟨b, by simp⟩
      simp only [hpre, List.isEmpty_cons, Bool.not_false, Bool.and_true, if_pos]
      have hdrop : (old' ++ b).drop ((o :: old').length - 1) = b := by
        simp [List.drop_left]
      rw [hdrop]
      rw [replAux_of_not_hasSub (o :: old') f b ?_ hb]
      have : (old' ++ b).length + 1 ≤ f + 1 := by simpa using hf
      simp only [List.length_append] at this
      omega
  | cons c a' ih =>
    intro f b hf hpre hb
    cases f with
    | zero => simp at hf
    | succ f =>
      have h0 : old.isPrefixOf (c :: (a' ++ old ++ b)) = false := by
        have := hpre 0 (by simp)
        simpa using this
      simp only [List.cons_append] at hf ⊢
      rw [replAux]
      simp only [h0, Bool.and_false, if_neg, Bool.false_eq_true, not_false_eq_true]
      rw [ih f b (by simpa using Nat.le_of_succ_le_succ hf) ?_ hb]
      intro i hi
      have := hpre (i + 1) (by simpa using Nat.succ_lt_succ hi)
      simpa using this

theorem splitAux_of_not_hasSub (sep : List Char) :
    ∀ (f : Nat) (s : List Char), s.length ≤ f → hasSub s sep = false →
      splitAux sep f s = [s] := by
  intro f
  induction f with
  | zero =>
    intro s hs _
    cases s with
    | nil => rfl
    | cons c rest => simp at hs
  | succ f ih =>
    intro s hs h
    cases s with
    | nil => rfl
    | cons c rest =>
      rw [hasSub_cons] at h
      have h1 : sep.isPrefixOf (c :: rest) = false := by
        cases hp : sep.isPrefixOf (c :: rest) <;> simp [hp] at h ⊢
      have h2 : hasSub rest sep = false := by
        cases hq : hasSub rest sep <;> simp [hq] at h ⊢
      simp only [splitAux, h1, Bool.and_false, if_neg, Bool.false_eq_true,
        not_false_eq_true]
      rw [ih rest (by simpa using Nat.le_of_succ_le_succ hs) h2]
      rfl

theorem splitAux_boundary (sep : List Char) (hsep : sep ≠ []) :
    ∀ (a : List Char) (f : Nat) (b : List Char),
      (a ++ sep ++ b).length ≤ f →
      (∀ i, i < a.length → sep.isPrefixOf ((a ++ sep ++ b).drop i) = false) →
      hasSub b sep = false →
      splitAux sep f (a ++ sep ++ b) = [a, b] := by
  intro a
  induction a with
  | nil =>
    intro f b hf _ hb
    obtain ⟨o, sep', rfl⟩ : ∃ o sep', sep = o :: sep' := by
      cases sep with
      | nil => exact absurd rfl hsep
      | cons o sep' => exact ⟨o, sep', rfl⟩
    cases f with
    | zero => simp at hf
    | succ f =>
      simp only [List.nil_append, List.cons_append] at hf ⊢
      rw [splitAux]
      have hpre : (o :: sep').isPrefixOf (o :: (sep' ++ b)) = true := by
        rw [isPrefixOf_eq_true_iff]
        exact ⟨b, by simp⟩
      simp only [hpre, List.isEmpty_cons, Bool.not_false, Bool.and_true, if_pos]
      have hdrop : (sep' ++ b).drop ((o :: sep').length - 1) = b := by
        simp [List.drop_left]
      rw [hdrop]
      rw [splitAux_of_not_hasSub (o :: sep') f b ?_ hb]
      have : (sep' ++ b).length + 1 ≤ f + 1 := by simpa using hf
      simp only [List.length_append] at this
      omega
  | cons c a' ih =>
    intro f b hf hpre hb
    cases f with
    | zero => simp at hf
    | succ f =>
      have h0 : sep.isPrefixOf (c :: (a' ++ sep ++ b)) = false := by
        have := hpre 0 (by simp)
        simpa using this
      simp only [List.cons_append] at hf ⊢
      rw [splitAux]
      simp only [h0, Bool.and_false, if_neg, Bool.false_eq_true, not_false_eq_true]
      have hshift : ∀ i, i < a'.length →
          sep.isPrefixOf ((a' ++ sep ++ b).drop i) = false := by
        intro i hi
        have := hpre (i + 1) (by simpa using Nat.succ_lt_succ hi)
        simpa using this
      rw [ih f b (by simpa using Nat.le_of_succ_le_succ hf) hshift hb]
      rfl

/-! ## Paragraph-splitting lemmas -/

theorem splitNL_ne_nil (s : List Char) : splitNL s ≠ [] := by
  cases s with
  | nil => simp [splitNL]
  | cons c rest =>
    simp only [splitNL]
    split <;> simp

theorem splitNL_parts (s : List Char) :
    ((splitNL s).headD [] <+: s) ∧ ∀ p ∈ (splitNL s).tail, p <:+: s := by
  induction s with
  | nil => refine ⟨by simp [splitNL], by simp [splitNL]⟩
  | cons c rest ih =>
    by_cases hc : c = '\n'
    · refine ⟨by simp [splitNL, hc], ?_⟩
      simp only [splitNL, hc, if_pos, List.tail_cons]
      intro p hp
      have hps : p <:+: rest := by
        rcases h' : splitNL rest with _ | ⟨hd, tl⟩
        · exact absurd h' (splitNL_ne_nil rest)
        · rw [h'] at hp
          rcases List.mem_cons.mp hp with rfl | hm
          · have hhd : (splitNL rest).headD [] = p := by rw [h']; rfl
            exact sub_of_pre (hhd ▸ ih.1)
          · have : p ∈ (splitNL rest).tail := by rw [h']; exact hm
            exact ih.2 p this
      exact List.infix_cons hps
    · constructor
      · simp only [splitNL, if_neg hc, List.headD_cons]
        exact List.cons_prefix_cons.mpr ⟨rfl, ih.1⟩
      · simp only [splitNL, if_neg hc, List.tail_cons]
        intro p hp
        exact List.infix_cons (ih.2 p hp)

theorem mem_splitNL_sub {p s : List Char} (hp : p ∈ splitNL s) : p <:+: s := by
  rcases h' : splitNL s with _ | ⟨hd, tl⟩
  · exact absurd h' (splitNL_ne_nil s)
  · rw [h'] at hp
    have hparts := splitNL_parts s
    rcases List.mem_cons.mp hp with rfl | hm
    · have hhd : (splitNL s).headD [] = p := by rw [h']; rfl
      exact sub_of_pre (hhd ▸ hparts.1)
    · have : p ∈ (splitNL s).tail := by rw [h']; exact hm
      exact hparts.2 p this

/-! ## Per-paragraph event characterization -/

theorem paragraphEvents_eq_marker {images : List Char → Option String}
    {p k rest : List Char} (h : imageMarkerMatch (pyStrip p) = some (k, rest)) :
    paragraphEvents images p =
      match images (pyStrip k) with
      | some pa => [Ev.insertImage pa]
      | none => [] := by
  simp only [paragraphEvents]
  rw [h]

theorem paragraphEvents_eq_plain {images : List Char → Option String}
    {p : List Char} (h : imageMarkerMatch (pyStrip p) = none) :
    paragraphEvents images p =
      (if (pyStrip p).isEmpty then [] else [Ev.typed p]) ++ [Ev.enter] := by
  simp only [paragraphEvents]
  rw [h]

theorem markerKeywordOf_eq_some {p k rest : List Char}
    (h : imageMarkerMatch (pyStrip p) = some (k, rest)) :
    markerKeywordOf p = some (pyStrip k) := by
  simp [markerKeywordOf, h]

theorem markerKeywordOf_eq_none {p : List Char}
    (h : imageMarkerMatch (pyStrip p) = none) :
    markerKeywordOf p = none := by
  simp [markerKeywordOf, h]

theorem insertedPaths_nil : insertedPaths [] = [] := rfl

theorem insertedPaths_typed (s : List Char) (evs : List Ev) :
    insertedPaths (Ev.typed s :: evs) = insertedPaths evs := rfl

theorem insertedPaths_enter (evs : List Ev) :
    insertedPaths (Ev.enter :: evs) = insertedPaths evs := rfl

theorem insertedPaths_insert (pa : String) (evs : List Ev) :
    insertedPaths (Ev.insertImage pa :: evs) = pa :: insertedPaths evs := rfl

theorem typedTexts_nil : typedTexts [] = [] := rfl

theorem typedTexts_typed (s : List Char) (evs : List Ev) :
    typedTexts (Ev.typed s :: evs) = s :: typedTexts evs := rfl

theorem typedTexts_enter (evs : List Ev) :
    typedTexts (Ev.enter :: evs) = typedTexts evs := rfl

theorem typedTexts_insert (pa : String) (evs : List Ev) :
    typedTexts (Ev.insertImage pa :: evs) = typedTexts evs := rfl

theorem enterCount_nil : enterCount [] = 0 := rfl

theorem enterCount_typed (s : List Char) (evs : List Ev) :
    enterCount (Ev.typed s :: evs) = enterCount evs := by
  simp [enterCount]

theorem enterCount_enter (evs : List Ev) :
    enterCount (Ev.enter :: evs) = enterCount evs + 1 := by
  simp [enterCount, List.countP_cons]

theorem enterCount_insert (pa : String) (evs : List Ev) :
    enterCount (Ev.insertImage pa :: evs) = enterCount evs := by
  simp [enterCount]

theorem typeParagraphsAux_spec (images : List Char → Option String)
    (ps : List (List Char)) :
    insertedPaths (typeParagraphsAux images ps)
        = ps.filterMap (fun p => (markerKeywordOf p).bind images)
    ∧ typedTexts (typeParagraphsAux images ps)
        = ps.filter (fun p => (markerKeywordOf p).isNone && !(pyStrip p).isEmpty)
    ∧ enterCount (typeParagraphsAux images ps)
        = ps.countP (fun p => (markerKeywordOf p).isNone) := by
  induction ps with
  | nil => exact ⟨rfl, rfl, rfl⟩
  | cons p ps ih =>
    have haux : typeParagraphsAux images (p :: ps)
        = paragraphEvents images p ++ typeParagraphsAux images ps := rfl
    cases hm : imageMarkerMatch (pyStrip p) with
    | none =>
      have he := @paragraphEvents_eq_plain images p hm
      have hk := markerKeywordOf_eq_none hm
      by_cases hemp : (pyStrip p).isEmpty = true
      · rw [haux, he, if_pos hemp]
        simp only [List.nil_append, List.singleton_append, insertedPaths_enter,
          typedTexts_enter, enterCount_enter, ih.1, ih.2.1, ih.2.2,
          List.filterMap_cons, List.filter_cons, List.countP_cons, hk,
          Option.none_bind, Option.isNone_none, hemp]
        simp
      · rw [haux, he, if_neg hemp]
        have hemp' : (!(pyStrip p).isEmpty) = true := by
          cases hx : (pyStrip p).isEmpty
          · rfl
          · exact absurd hx hemp
        refine ⟨?_, ?_, ?_⟩
        · simp [List.cons_append, insertedPaths_typed, insertedPaths_enter, ih.1,
            List.filterMap_cons, hk]
        · simp [List.cons_append, typedTexts_typed, typedTexts_enter, ih.2.1,
            List.filter_cons, hk, hemp']
        · simp [List.cons_append, enterCount_typed, enterCount_enter, ih.2.2,
            List.countP_cons, hk]
    | some kr =>
      obtain ⟨k, rest⟩ := kr
      have he := @paragraphEvents_eq_marker images p k rest hm
      have hk := markerKeywordOf_eq_some hm
      have hkn : (markerKeywordOf p).isNone = false := by rw [hk]; rfl
      cases hres : images (pyStrip k) with
      | none =>
        rw [haux, he, hres]
        simp only [List.nil_append, ih.1, ih.2.1, ih.2.2, List.filterMap_cons,
          List.filter_cons, List.countP_cons, hk, Option.some_bind, hres, hkn]
        simp
      | some pa =>
        rw [haux, he, hres]
        simp only [List.cons_append, List.nil_append, insertedPaths_insert,
          typedTexts_insert, enterCount_insert, ih.1, ih.2.1, ih.2.2,
          List.filterMap_cons, List.filter_cons, List.countP_cons, hk,
          Option.some_bind, hres, hkn]
        simp

theorem filterMap_resolved (images : List Char → Option String)
    (f : List Char → String) (ps : List (List Char))
    (h : ∀ p ∈ ps, ∀ k, markerKeywordOf p = some k → images k = some (f k)) :
    ps.filterMap (fun p => (markerKeywordOf p).bind images)
      = (ps.filterMap markerKeywordOf).map f := by
  induction ps with
  | nil => rfl
  | cons p ps ih =>
    have hrest : ∀ q ∈ ps, ∀ k, markerKeywordOf q = some k → images k = some (f k) :=
      fun q hq => h q (List.mem_cons_of_mem _ hq)
    cases hk : markerKeywordOf p with
    | none => simp [List.filterMap_cons, hk, ih hrest]
    | some k =>
      have hres := h p (List.mem_cons_self _ _) k hk
      simp [List.filterMap_cons, hk, hres, ih hrest]

theorem filterMap_length_countP {α β : Type} (g : α → Option β) (ps : List α) :
    (ps.filterMap g).length = ps.countP (fun p => (g p).isSome) := by
  induction ps with
  | nil => rfl
  | cons p ps ih =>
    cases hk : g p with
    | none => simp [List.filterMap_cons, hk, List.countP_cons, ih]
    | some b => simp [List.filterMap_cons, hk, List.countP_cons, ih]

/-- C4.  With every marker paragraph's keyword resolved by the image
dictionary, typing a body performs exactly one image insertion per marker
paragraph, in the original document order, each with the path resolved for
its keyword; marker paragraphs are never typed as text and receive no
end-of-paragraph Enter, while every non-marker paragraph receives exactly one. -/
theorem content_entry_round_trip (images : List Char → Option String)
    (f : List Char → String) (text : List Char)
    (h : ∀ p ∈ splitNL text, ∀ k, markerKeywordOf p = some k → images k = some (f k)) :
    insertedPaths (typeParagraphs images text)
        = ((splitNL text).filterMap markerKeywordOf).map f
    ∧ (insertedPaths (typeParagraphs images text)).length
        = (splitNL text).countP (fun p => (markerKeywordOf p).isSome)
    ∧ typedTexts (typeParagraphs images text)
        = (splitNL text).filter (fun p => (markerKeywordOf p).isNone && !(pyStrip p).isEmpty)
    ∧ enterCount (typeParagraphs images text)
        = (splitNL text).countP (fun p => (markerKeywordOf p).isNone) := by
  have spec := typeParagraphsAux_spec images (splitNL text)
  have h1 : insertedPaths (typeParagraphs images text)
      = ((splitNL text).filterMap markerKeywordOf).map f := by
    show insertedPaths (typeParagraphsAux images (splitNL text)) = _
    rw [spec.1, filterMap_resolved images f _ h]
  refine ⟨h1, ?_, spec.2.1, spec.2.2⟩
  rw [h1, List.length_map, filterMap_length_countP]

/-- C4 witness: the end-to-end scenario `para1\n[IMAGE:cat]\npara2` with a
total image dictionary. -/
theorem content_entry_round_trip_witness :
    insertedPaths (typeParagraphs (fun _ => some "/tmp/cat.jpg")
        "para1\n[IMAGE:cat]\npara2".toList)
      = ((splitNL "para1\n[IMAGE:cat]\npara2".toList).filterMap
          markerKeywordOf).map (fun _ => "/tmp/cat.jpg")
    ∧ insertedPaths (typeParagraphs (fun _ => some "/tmp/cat.jpg")
        "para1\n[IMAGE:cat]\npara2".toList) = ["/tmp/cat.jpg"]
    ∧ typedTexts (typeParagraphs (fun _ => some "/tmp/cat.jpg")
        "para1\n[IMAGE:cat]\npara2".toList)
      = ["para1".toList, "para2".toList] :=
  ⟨(content_entry_round_trip (fun _ => some "/tmp/cat.jpg") (fun _ => "/tmp/cat.jpg")
      "para1\n[IMAGE:cat]\npara2".toList (fun _ _ _ _ => rfl)).1,
   by decide, by decide⟩

/-- C5.  The element locator tries candidates in list order, returning the
first candidate whose query raises no error, matches at least one element,
and whose first match is visible; errors and non-hits are skipped; it
returns `none` exactly when every candidate fails. -/
theorem locator_first_visible (page : String → QueryOutcome) (cs : List String) :
    find_element page cs = cs.find? (candidateHit page)
    ∧ (find_element page cs = none ↔ ∀ s ∈ cs, candidateHit page s = false)
    ∧ (∀ s, find_element page cs = some s → candidateHit page s = true ∧ s ∈ cs) := by
  have hfind : find_element page cs = cs.find? (candidateHit page) := by
    induction cs with
    | nil => rfl
    | cons c rest ih =>
      by_cases hc : candidateHit page c = true
      · simp [find_element, hc, List.find?_cons, ih]
      · have hc' : candidateHit page c = false := by
          cases h : candidateHit page c
          · rfl
          · exact absurd h hc
        simp [find_element, hc', List.find?_cons, ih]
  refine ⟨hfind, ?_, ?_⟩
  · rw [hfind]
    simp [List.find?_eq_none]
  · intro s hs
    rw [hfind] at hs
    exact ⟨List.find?_some hs, List.mem_of_find?_eq_some hs⟩

/-- C5 witness: with the first candidate erroring, the second invisible and
the third visible, the locator returns the third candidate, never the later
visible fourth. -/
theorem locator_first_visible_witness :
    find_element
        (fun s => if s = "a" then QueryOutcome.error
          else if s = "b" then QueryOutcome.found 2 false
          else QueryOutcome.found 1 true)
        ["a", "b", "c", "d"]
      = List.find? (candidateHit
          (fun s => if s = "a" then QueryOutcome.error
            else if s = "b" then QueryOutcome.found 2 false
            else QueryOutcome.found 1 true)) ["a", "b", "c", "d"]
    ∧ find_element
        (fun s => if s = "a" then QueryOutcome.error
          else if s = "b" then QueryOutcome.found 2 false
          else QueryOutcome.found 1 true)
        ["a", "b", "c", "d"] = some "c" :=
  ⟨(locator_first_visible _ ["a", "b", "c", "d"]).1, by decide⟩

/-- C1.  If a definitive proof response (status 200/201, URL containing
`note.com` and `draft=false`) has been recorded by the time of either proof
check — after the settings-page navigation or after the final confirm
click — the publish verdict is success, whatever the final URL is. -/
theorem publish_proof_short_circuit (run : PublishRun) (r : NetResponse)
    (hmem : r ∈ run.phase1 ++ run.phase2) (hr : isProofResponse r = true) :
    publishVerdict run = true := by
  unfold publishVerdict
  have h12 : (run.phase1 ++ run.phase2).any isProofResponse = true :=
    List.any_eq_true.mpr ⟨r, hmem, hr⟩
  by_cases h1 : run.phase1.any isProofResponse = true
  · simp [h1]
  · simp [h1, h12]

/-- C1 witness: one 201 `draft=false` proof response recorded before the
final click forces success even though the final URL is still the new-post
page (where the URL heuristic alone would conclude failure). -/
theorem publish_proof_short_circuit_witness :
    publishVerdict
      { phase1 := []
        phase2 := [{ url := "https://note.com/api/v2/notes/n1?draft=false".toList,
                     status := 201 }]
        phase3 := []
        finalUrl := "https://note.com/notes/new".toList } = true :=
  publish_proof_short_circuit _
    { url := "https://note.com/api/v2/notes/n1?draft=false".toList, status := 201 }
    (by decide) (by decide)

/-- C2.  When no definitive proof response was recorded at any point of the
run, the verdict is failure exactly when the final URL still contains
`/publish/` or `/notes/new` or ends with `/edit`; any other URL gives
success. -/
theorem publish_url_heuristic (run : PublishRun)
    (h : ∀ r ∈ run.phase1 ++ run.phase2 ++ run.phase3, isProofResponse r = false) :
    (publishVerdict run = false ↔ unresolvedUrl run.finalUrl = true) := by
  have h1 : run.phase1.any isProofResponse = false := by
    rw [List.any_eq_false]
    intro r hrm
    simp [h r (by simp [hrm])]
  have h12 : (run.phase1 ++ run.phase2).any isProofResponse = false := by
    rw [List.any_eq_false]
    intro r hrm
    rcases List.mem_append.mp hrm with hm | hm <;> simp [h r (by simp [hm])]
  unfold publishVerdict
  by_cases hu : unresolvedUrl run.finalUrl = true
  · simp [h1, h12, hu]
  · simp [h1, h12, hu]

/-- C2 witness: no responses at all and a final URL still on the settings
pattern — the verdict is failure. -/
theorem publish_url_heuristic_witness :
    (publishVerdict
        { phase1 := [], phase2 := [], phase3 := [],
          finalUrl := "https://note.com/notes/n1/publish/".toList } = false
      ↔ unresolvedUrl "https://note.com/notes/n1/publish/".toList = true)
    ∧ publishVerdict
        { phase1 := [], phase2 := [], phase3 := [],
          finalUrl := "https://note.com/notes/n1/publish/".toList } = false :=
  ⟨publish_url_heuristic _ (by simp), by decide⟩

/-- C6.  In a login run that reaches credential submission (credentials set,
all three fields located), the attempt fails exactly when the lowercased
post-submit URL contains `login`; the session state file is written exactly
on success (and, over all runs, the returned flag and the write always
agree). -/
theorem login_url_verdict (env : LoginEnv)
    (he : env.email ≠ "") (hp : env.password ≠ "")
    (h1 : env.emailFieldFound = true) (h2 : env.passwordFieldFound = true)
    (h3 : env.loginButtonFound = true) :
    (login env = Except.ok (false, false)
        ↔ hasSub (lowerCase env.urlAfterSubmit) "login".toList = true)
    ∧ (login env = Except.ok (true, true)
        ↔ hasSub (lowerCase env.urlAfterSubmit) "login".toList = false)
    ∧ ∀ env' : LoginEnv, ∀ s w, login env' = Except.ok (s, w) → w = s := by
  have hgen : ∀ env' : LoginEnv, ∀ s w, login env' = Except.ok (s, w) → w = s := by
    intro env' s w hl
    unfold login at hl
    split at hl
    · cases hl
    · split at hl
      · cases hl; rfl
      · split at hl
        · cases hl; rfl
        · split at hl
          · cases hl; rfl
          · split at hl
            · cases hl; rfl
            · cases hl; rfl
  refine ⟨?_, ?_, hgen⟩ <;>
    · unfold login
      by_cases hu : hasSub (lowerCase env.urlAfterSubmit) "login".toList = true <;>
        simp [he, hp, h1, h2, h3, hu]

/-- C6 witness: a submission landing back on a login URL fails, one landing
on the home page succeeds and writes the session file. -/
theorem login_url_verdict_witness :
    (login { email := "a@b.c", password := "pw", emailFieldFound := true,
             passwordFieldFound := true, loginButtonFound := true,
             urlAfterSubmit := "https://note.com/Login?err=1".toList }
        = Except.ok (false, false)
      ↔ hasSub (lowerCase "https://note.com/Login?err=1".toList) "login".toList = true)
    ∧ login { email := "a@b.c", password := "pw", emailFieldFound := true,
              passwordFieldFound := true, loginButtonFound := true,
              urlAfterSubmit := "https://note.com/Login?err=1".toList }
        = Except.ok (false, false) :=
  ⟨(login_url_verdict _ (by decide) (by decide) rfl rfl rfl).1, by rfl⟩

/-- C7.  With a saved session artifact present: if the site root shows no
login affordance, neither an interactive login nor a state-file deletion
happens (the login procedure — the only place credential fields are
touched — is skipped entirely); if the affordance is present, the state
file is deleted and an interactive login is performed. -/
theorem session_reuse_skips_login (env : RunPostEnv)
    (h : env.authStateExists = true) :
    (env.loginLinkPresent = false →
        RpAction.performLogin ∉ (run_post env).1
        ∧ RpAction.deleteAuthState ∉ (run_post env).1)
    ∧ (env.loginLinkPresent = true →
        RpAction.deleteAuthState ∈ (run_post env).1
        ∧ RpAction.performLogin ∈ (run_post env).1) := by
  constructor
  · intro hl
    rw [run_post] at *
    simp [h, hl]
  · intro hl
    rw [run_post] at *
    cases hs : env.loginSucceeds <;> simp [h, hl, hs]

/-- C7 witness: saved session, no login affordance — the action trace holds
only the root navigation and the post. -/
theorem session_reuse_skips_login_witness :
    (RpAction.performLogin ∉ (run_post ⟨true, false, false, true⟩).1
      ∧ RpAction.deleteAuthState ∉ (run_post ⟨true, false, false, true⟩).1)
    ∧ (run_post ⟨true, false, false, true⟩).1
      = [RpAction.navigateRoot, RpAction.postArticle] :=
  ⟨(session_reuse_skips_login ⟨true, false, false, true⟩ rfl).1 rfl, by decide⟩

/-- C8 counterexample to the claim as stated: a located draft affordance on
which every click attempt raises still yields a success verdict, although
the affordance was not successfully clicked (`_safe_click` reports failure,
and its report is discarded by `_save_as_draft`). -/
theorem draft_click_ignored_counterexample :
    save_as_draft { draftButtonFound := true, clickAttempt := fun _ => false } = true
    ∧ safe_click (fun _ => false) = false := by
  exact ⟨rfl, rfl⟩

/-- C8 (amended).  The draft verdict is success exactly when the draft
affordance was located; the click is attempted with retries but its outcome
never changes the verdict (and network and URL state play no role at all). -/
theorem draft_verdict_found_only (env : DraftEnv) :
    (save_as_draft env = true ↔ env.draftButtonFound = true)
    ∧ (env.draftButtonFound = false → save_as_draft env = false) := by
  constructor
  · cases h : env.draftButtonFound <;> simp [save_as_draft, h]
  · intro h
    simp [save_as_draft, h]

/-- C8 witness: affordance found, first click succeeding — verdict success. -/
theorem draft_verdict_found_only_witness :
    save_as_draft ⟨true, fun i => i = 0⟩ = true :=
  (draft_verdict_found_only ⟨true, fun i => i = 0⟩).1.mpr rfl

/-- C9.  Evaluating `main`'s per-account history recording at an account
whose `run_post` raises: the source appends two records for the one attempt
(the `except`-block record with the error string, then the unconditional
post-`finally` record), and subsequent accounts are still processed. -/
theorem history_double_record :
    recordsForAccount "AI" "Title" false (Except.error "boom")
        = [{ theme := "AI", title := "Title", success := false, as_draft := false,
             error := some "boom" },
           { theme := "AI", title := "Title", success := false, as_draft := false,
             error := none }]
    ∧ (recordsForAccount "AI" "Title" false (Except.error "boom")).length = 2
    ∧ (mainLoop "AI" "Title" false [Except.error "boom", Except.ok true]).1.length = 3
    ∧ (mainLoop "AI" "Title" false [Except.error "boom", Except.ok true]).2 = false := by
  refine ⟨rfl, rfl, rfl, rfl⟩

/-! ## The anchored marker pattern (C10) -/

theorem takeWhile_dropWhile_middle (k rest : List Char) (hk : ']' ∉ k) :
    (k ++ ']' :: rest).takeWhile (fun c => c ≠ ']') = k
    ∧ (k ++ ']' :: rest).dropWhile (fun c => c ≠ ']') = ']' :: rest := by
  induction k with
  | nil => simp
  | cons x k ih =>
    have hx : x ≠ ']' := fun hx => hk (by simp [hx])
    have ihk : ']' ∉ k := fun hm => hk (List.mem_cons_of_mem _ hm)
    have ht := ih ihk
    constructor
    · rw [List.cons_append, List.takeWhile_cons_of_pos (by simpa using hx), ht.1]
    · rw [List.cons_append, List.dropWhile_cons_of_pos (by simpa using hx), ht.2]

theorem dropWhile_head_not {α : Type} (p : α → Bool) (l : List α) (c : α)
    (r : List α) (h : l.dropWhile p = c :: r) : p c = false := by
  induction l with
  | nil => simp at h
  | cons x xs ih =>
    rw [List.dropWhile_cons] at h
    split at h
    · exact ih h
    · cases h
      rename_i hpx
      cases hpc : p c
      · rfl
      · exact absurd hpc hpx

/-- The anchored regex match, characterized: it succeeds with capture `k`
and trailing text `rest` exactly when the input decomposes as
`[IMAGE:` ++ `k` ++ `]` ++ `rest` with `k` non-empty and free of `]`. -/
theorem imageMarkerMatch_eq_some_iff (s k rest : List Char) :
    imageMarkerMatch s = some (k, rest)
      ↔ s = imageMarkerHead ++ k ++ ']' :: rest ∧ k ≠ [] ∧ ']' ∉ k := by
  constructor
  · intro h
    unfold imageMarkerMatch at h
    split at h
    case isFalse => cases h
    case isTrue hpre =>
      simp only at h
      split at h
      case isTrue => cases h
      case isFalse hk0 =>
        split at h
        case isTrue => cases h
        case isFalse hr0 =>
          rw [Option.some_inj] at h
          have htw : ((s.drop imageMarkerHead.length).takeWhile
              (fun c => c ≠ ']')) = k := congrArg Prod.fst h
          have htl : ((s.drop imageMarkerHead.length).dropWhile
              (fun c => c ≠ ']')).tail = rest := congrArg Prod.snd h
          have hs : s = imageMarkerHead ++ s.drop imageMarkerHead.length :=
            (List.prefix_iff_eq_append.mp (isPrefixOf_eq_true_iff.mp hpre)).symm
          have hwne : (s.drop imageMarkerHead.length).dropWhile
              (fun c => c ≠ ']') ≠ [] := by
            intro hz
            rw [hz] at hr0
            simp at hr0
          have hdw : (s.drop imageMarkerHead.length).dropWhile
              (fun c => c ≠ ']') = ']' :: rest := by
            rcases hd : (s.drop imageMarkerHead.length).dropWhile
                (fun c => c ≠ ']') with _ | ⟨c₀, r₀⟩
            · exact absurd hd hwne
            · have hc₀ := dropWhile_head_not _ _ _ _ hd
              rw [hd] at htl
              simp only [List.tail_cons] at htl
              have hcc : c₀ = ']' := by simpa using hc₀
              rw [hcc, htl]
          refine ⟨?_, ?_, ?_⟩
          · rw [List.append_assoc, hs,
              ← List.takeWhile_append_dropWhile (fun c => decide (c ≠ ']'))
                (s.drop imageMarkerHead.length), htw, hdw]
          · intro hz
            rw [hz] at htw
            rw [htw] at hk0
            simp at hk0
          · intro hmem
            have := List.mem_takeWhile_imp (htw ▸ hmem)
            simp at this
  · rintro ⟨hs, hk, hmem⟩
    have hdrop : s.drop imageMarkerHead.length = k ++ ']' :: rest := by
      rw [hs, List.append_assoc]
      exact List.drop_left _ _
    have htwdw := takeWhile_dropWhile_middle k rest hmem
    unfold imageMarkerMatch
    rw [if_pos ?side]
    case side =>
      apply isPrefixOf_eq_true_iff.mpr
      exact ⟨k ++ ']' :: rest, by rw [hs, List.append_assoc]⟩
    simp only [hdrop, htwdw.1, htwdw.2]
    rw [if_neg ?kne]
    case kne =>
      simp [hk]
    simp

/-- C10.  A paragraph is treated as an image marker exactly when its
stripped text *begins with* `[IMAGE:k]` for a non-empty, `]`-free keyword
text `k` — a prefix match, so trailing text `rest` after the `]` still makes
the paragraph a marker, and that trailing text is silently dropped (a marker
paragraph produces no typed text and no Enter).  When the stripped text does
not begin with such a marker — in particular when a marker occurs only later
in the paragraph — no image is inserted and the non-blank paragraph is typed
literally in full. -/
theorem marker_prefix_semantics (p : List Char) (images : List Char → Option String) :
    (∀ k rest, imageMarkerMatch (pyStrip p) = some (k, rest)
        ↔ pyStrip p = imageMarkerHead ++ k ++ ']' :: rest ∧ k ≠ [] ∧ ']' ∉ k)
    ∧ (∀ k rest, imageMarkerMatch (pyStrip p) = some (k, rest) →
        typedTexts (paragraphEvents images p) = []
        ∧ enterCount (paragraphEvents images p) = 0)
    ∧ (imageMarkerMatch (pyStrip p) = none →
        insertedPaths (paragraphEvents images p) = []
        ∧ ((pyStrip p).isEmpty = false → typedTexts (paragraphEvents images p) = [p])
        ∧ enterCount (paragraphEvents images p) = 1) := by
  refine ⟨fun k rest => imageMarkerMatch_eq_some_iff (pyStrip p) k rest, ?_, ?_⟩
  · intro k rest h
    rw [@paragraphEvents_eq_marker images p k rest h]
    cases images (pyStrip k) with
    | none => exact ⟨rfl, rfl⟩
    | some pa => exact ⟨rfl, rfl⟩
  · intro h
    rw [@paragraphEvents_eq_plain images p h]
    by_cases hemp : (pyStrip p).isEmpty = true
    · rw [if_pos hemp]
      refine ⟨rfl, ?_, by simp [enterCount_enter, enterCount_nil]⟩
      intro hfalse
      rw [hemp] at hfalse
      cases hfalse
    · rw [if_neg hemp]
      exact ⟨rfl, fun _ => rfl, by simp [List.cons_append, enterCount_typed,
        enterCount_enter, enterCount_nil]⟩

/-- C10 witness: ` [IMAGE:cat] trailing` is a marker paragraph (trailing
text discarded, nothing typed), while `x [IMAGE:cat] y` — the marker not at
the stripped start — is typed literally with no insertion. -/
theorem marker_prefix_semantics_witness :
    (typedTexts (paragraphEvents (fun _ => none) " [IMAGE:cat] trailing".toList) = []
      ∧ enterCount (paragraphEvents (fun _ => none) " [IMAGE:cat] trailing".toList) = 0)
    ∧ insertedPaths (paragraphEvents (fun _ => none) "x [IMAGE:cat] y".toList) = []
    ∧ typedTexts (paragraphEvents (fun _ => none) "x [IMAGE:cat] y".toList)
      = ["x [IMAGE:cat] y".toList] :=
  ⟨(marker_prefix_semantics " [IMAGE:cat] trailing".toList (fun _ => none)).2.1
      "cat".toList " trailing".toList (by decide),
   ((marker_prefix_semantics "x [IMAGE:cat] y".toList (fun _ => none)).2.2
      (by decide)).1,
   ((marker_prefix_semantics "x [IMAGE:cat] y".toList (fun _ => none)).2.2
      (by decide)).2.1 (by decide)⟩

/-! ## Paid-content delimiter (C3) -/

/-- C3 counterexample to the claim as stated: this body contains exactly one
occurrence of the paid delimiter (its single-delimiter split has exactly two
parts), yet with the paid feature disabled the one-pass `replace` glues the
surrounding text into a fresh literal delimiter, which is then typed into
the editor verbatim. -/
theorem paid_delimiter_counterexample :
    hasSub "---ここから有---ここから有料---料---".toList paidDelim = true
    ∧ (pySplit "---ここから有---ここから有料---料---".toList paidDelim).length = 2
    ∧ pyReplaceAll "---ここから有---ここから有料---料---".toList paidDelim = paidDelim
    ∧ postBody false (fun _ => none) "---ここから有---ここから有料---料---".toList
        = BodyTyping.single [Ev.typed paidDelim, Ev.enter]
    ∧ hasSub paidDelim paidDelim = true := by
  decide

/-- C3 (amended).  For a body `a ++ delimiter ++ b` whose first delimiter
occurrence starts exactly after `a` and in which the delimiter occurs
neither in `b` nor in the glued remainder `a ++ b`: with the feature
disabled the delimiter is stripped and `a ++ b` is typed as one stream in
which no typed paragraph contains the delimiter; with the feature enabled
the free part `a` is typed first and the paid part `b` second, as two
sequential passes with no interleaving.  (Without the no-new-occurrence
proviso the disabled path can type a literal delimiter recreated by
juxtaposition — see the counterexample.) -/
theorem paid_delimiter_amended (images : List Char → Option String)
    (a b : List Char)
    (ha : ∀ i, i < a.length →
      paidDelim.isPrefixOf ((a ++ paidDelim ++ b).drop i) = false)
    (hb : hasSub b paidDelim = false)
    (hab : hasSub (a ++ b) paidDelim = false) :
    (postBody false images (a ++ paidDelim ++ b)
        = BodyTyping.single (typeParagraphs images (a ++ b))
      ∧ ∀ s ∈ typedTexts (typeParagraphs images (a ++ b)),
          hasSub s paidDelim = false)
    ∧ postBody true images (a ++ paidDelim ++ b)
        = BodyTyping.paidSplit (typeParagraphs images a) (typeParagraphs images b) := by
  have hdne : paidDelim ≠ [] := by decide
  have hrepl : pyReplaceAll (a ++ paidDelim ++ b) paidDelim = a ++ b := by
    unfold pyReplaceAll
    exact replAux_boundary paidDelim hdne a _ b le_rfl ha hb
  have hsplit : pySplit (a ++ paidDelim ++ b) paidDelim = [a, b] := by
    unfold pySplit
    exact splitAux_boundary paidDelim hdne a _ b le_rfl ha hb
  have hocc : hasSub (a ++ paidDelim ++ b) paidDelim = true := hasSub_middle _ _ _
  refine ⟨⟨?_, ?_⟩, ?_⟩
  · rw [postBody]
    simp only [Bool.false_and, Bool.false_eq_true, if_neg, not_false_eq_true, hrepl]
  · intro s hs
    have hmem : s ∈ splitNL (a ++ b) := by
      have hspec := (typeParagraphsAux_spec images (splitNL (a ++ b))).2.1
      have : s ∈ (splitNL (a ++ b)).filter
          (fun p => (markerKeywordOf p).isNone && !(pyStrip p).isEmpty) := by
        rw [← hspec]
        exact hs
      exact List.mem_of_mem_filter this
    exact hasSub_eq_false_of_sub (mem_splitNL_sub hmem) hab
  · rw [postBody]
    simp only [Bool.true_and, hocc, if_pos, hsplit]
    rfl

/-- C3 witness: a body `free` ++ delimiter ++ `paid` with no delimiter
occurrence elsewhere: disabled mode types one delimiter-free stream, enabled
mode types the free pass then the paid pass. -/
theorem paid_delimiter_amended_witness :
    (postBody false (fun _ => none) ("free".toList ++ paidDelim ++ "paid".toList)
        = BodyTyping.single (typeParagraphs (fun _ => none)
            ("free".toList ++ "paid".toList))
      ∧ ∀ s ∈ typedTexts (typeParagraphs (fun _ => none)
            ("free".toList ++ "paid".toList)),
          hasSub s paidDelim = false)
    ∧ postBody true (fun _ => none) ("free".toList ++ paidDelim ++ "paid".toList)
        = BodyTyping.paidSplit (typeParagraphs (fun _ => none) "free".toList)
            (typeParagraphs (fun _ => none) "paid".toList) :=
  paid_delimiter_amended (fun _ => none) "free".toList "paid".toList
    (by decide) (by decide) (by decide)

end NoteAuto